import Mathlib

/-!
Verification of the reference-page rendering core of this repository.

The core under verification is src/reference/_pages/Import.tsx: the
generator `getPages`, which maps an import symbol record and the shared
reference context to a single emitted page (title, url, content), and the
page component `Import`, which wraps a textual body and a pretty-printed
JSON dump of the record in the shared page layout.

Shallow-embedding conventions:
  * TypeScript template-literal URL construction becomes `String.append`.
  * `toLocaleLowerCase` is modelled by `lowerChar` mapped over the string:
    the ASCII fragment of Unicode simple lowercase mapping (code points
    65..90 shift by 32, all other code points are fixed), which is what
    the default-locale JavaScript conversion does on ASCII data.
  * The JSX tree returned by the component becomes an explicit `Markup`
    tree; the external page-layout collaborator (ReferencePage) is
    modelled freely, recording exactly the parameters the core passes it.
  * `JSON.stringify(data, null, 2)` becomes `jsonStringifyImport`: the
    two-space-indented JSON text of the record, with the standard JSON
    string escapes.
  * The generator yields become a `List`; the one-shot iteration
    protocol of a JavaScript generator object is modelled by
    `GeneratorState`/`iterateAll`.
-/

namespace DocsSpec

/-- Lowercasing of one character: the ASCII fragment of the Unicode simple
lowercase mapping used by the JavaScript default-locale conversion. -/
def lowerChar (c : Char) : Char :=
  if 65 ≤ c.toNat ∧ c.toNat ≤ 90 then Char.ofNat (c.toNat + 32) else c

/-- Model of `s.toLocaleLowerCase()` on a JavaScript string. -/
def toLocaleLowerCase (s : String) : String := String.mk (s.data.map lowerChar)

/-- Modelled from the spec: the `ReferenceContext` type comes from
src/reference/types.ts, which is not under src/; the spec gives it the
fields `root` (base URL prefix) and `packageName` (identity of the
documented package). Only those two fields are read by Import.tsx. -/
structure ReferenceContext where
  root : String
  packageName : String
deriving DecidableEq, Repr

/-- Modelled from the spec: the variant payload of an import record (the
source module path and the re-exported name), per the data model of the spec
for import/re-export symbol records. The concrete `DocNodeImport` shape
is owned by the external extraction tool. -/
structure ImportDef where
  src : String
  imported : String
deriving DecidableEq, Repr

/-- Modelled from the spec: an import symbol record. The `kind`
discriminant is the constant "import" and is implicit in the type; the
record carries the display name of the symbol and the variant payload. -/
structure DocNodeImport where
  name : String
  importDef : ImportDef
deriving DecidableEq, Repr

/-- Markup trees: the shapes of JSX content the component produces. -/
inductive Markup where
  | text : String → Markup
  | pre : Markup → Markup
  | seq : Markup → Markup → Markup
deriving DecidableEq, Repr

/-- All text fragments occurring in a markup tree. -/
def Markup.texts : Markup → List String
  | .text s => [s]
  | .pre m => m.texts
  | .seq a b => a.texts ++ b.texts

/-- Navigation parameters handed to the shared page layout. -/
structure Navigation where
  category : String
  currentItemName : String
deriving DecidableEq, Repr

/-- A fully composed page: the context, navigation parameters and inner
body handed to the layout collaborator. -/
structure RenderedPage where
  context : ReferenceContext
  navigation : Navigation
  body : Markup
deriving DecidableEq, Repr

/-- Modelled from the spec: the shared page-layout collaborator
(src/reference/_layouts/ReferencePage.tsx is not under src/). The spec
describes it as an external shell composing the context, the navigation
parameters and an inner content fragment; it is modelled freely, so the
rendered page records exactly what the core passes in. -/
def ReferencePage (context : ReferenceContext) (navigation : Navigation)
    (body : Markup) : RenderedPage :=
  ⟨context, navigation, body⟩

/-- Hexadecimal digit character (lowercase), as used by JSON `\u00XX`
escapes emitted by `JSON.stringify`. -/
def hexDigit (n : Nat) : Char :=
  if n < 10 then Char.ofNat (48 + n) else Char.ofNat (87 + n)

/-- JSON escaping of one character, following `JSON.stringify`: quote and
backslash are escaped, the named control escapes `\b \t \n \f \r` are
used, remaining control characters become `\u00XX`, and every other
character is emitted verbatim. -/
def escapeChar (c : Char) : List Char :=
  if c = '\"' then ['\\', '\"']
  else if c = '\\' then ['\\', '\\']
  else if c.toNat = 8 then ['\\', 'b']
  else if c.toNat = 9 then ['\\', 't']
  else if c.toNat = 10 then ['\\', 'n']
  else if c.toNat = 12 then ['\\', 'f']
  else if c.toNat = 13 then ['\\', 'r']
  else if c.toNat < 32 then
    ['\\', 'u', '0', '0', hexDigit (c.toNat / 16), hexDigit (c.toNat % 16)]
  else [c]

/-- JSON escaping of a character list. -/
def escapeList (l : List Char) : List Char := (l.map escapeChar).flatten

/-- A JSON string literal: opening quote, escaped content, closing quote. -/
def quoteJson (s : String) : String :=
  "\"" ++ String.mk (escapeList s.data) ++ "\""

/-- Literal fragment of the two-space-indented JSON dump before the name. -/
def jsonLit1 : String := "\x7b\n  \"kind\": \"import\",\n  \"name\": "

/-- Literal fragment between the name and the import-definition source. -/
def jsonLit2 : String := ",\n  \"importDef\": \x7b\n    \"src\": "

/-- Literal fragment between the source and the re-exported name. -/
def jsonLit3 : String := ",\n    \"imported\": "

/-- Closing literal fragment of the JSON dump. -/
def jsonLit4 : String := "\n  \x7d\n\x7d"

/-- Model of `JSON.stringify(data, null, 2)` on an import record: the
pretty-printed JSON text with two-space indentation. -/
def jsonStringifyImport (d : DocNodeImport) : String :=
  jsonLit1 ++ quoteJson d.name ++ jsonLit2 ++ quoteJson d.importDef.src ++
    jsonLit3 ++ quoteJson d.importDef.imported ++ jsonLit4

/-- The page component from Import.tsx: delegates the chrome to the
layout with navigation `category = context.packageName` and
`currentItemName = data.name`, and renders a greeting line followed by a
pre block holding the JSON dump of the record. -/
def Import (data : DocNodeImport) (context : ReferenceContext) : RenderedPage :=
  ReferencePage context ⟨context.packageName, data.name⟩
    (.seq (.text ("I am a Import, my name is " ++ data.name))
      (.pre (.text (jsonStringifyImport data))))

/-- An emitted page record, from src/reference/types.ts via the spec:
title, canonical URL and rendered content. -/
structure LumeDocument where
  title : String
  url : String
  content : RenderedPage
deriving DecidableEq, Repr

/-- The generator `getPages` from Import.tsx, as the list of its yields:
it yields exactly one document, whose url interpolates the context root,
the lowercased package name and the lowercased record name with the
".import" suffix. -/
def getPages (item : DocNodeImport) (context : ReferenceContext) :
    List LumeDocument :=
  [⟨item.name,
    context.root ++ "/" ++ toLocaleLowerCase context.packageName ++ "/" ++
      toLocaleLowerCase item.name ++ ".import",
    Import item context⟩]

/-- A JavaScript generator object mid-iteration: the values not yet
consumed. Calling `getPages` constructs one with all yields pending. -/
structure GeneratorState where
  pending : List LumeDocument
deriving DecidableEq, Repr

/-- Invoking the generator function: a fresh generator object holding the
full sequence of yields. -/
def mkGenerator (item : DocNodeImport) (context : ReferenceContext) :
    GeneratorState :=
  ⟨getPages item context⟩

/-- Draining iteration of a generator object (what a for..of loop does):
produces the pending values and leaves the object exhausted, since a
JavaScript generator returns itself from its iterator method and stays
done once its yields are consumed. -/
def iterateAll (g : GeneratorState) : List LumeDocument × GeneratorState :=
  (g.pending, ⟨[]⟩)

/-- The example record of the example scenario of the spec. -/
def fooRecord : DocNodeImport := ⟨"Foo", ⟨"./mod.ts", "Foo"⟩⟩

/-- The example context of the example scenario of the spec. -/
def refCtx : ReferenceContext := ⟨"/ref", "mypkg"⟩

/-- Value of a hexadecimal digit character (digits and lowercase letters). -/
def hexVal (c : Char) : Option Nat :=
  if 48 ≤ c.toNat ∧ c.toNat ≤ 57 then some (c.toNat - 48)
  else if 97 ≤ c.toNat ∧ c.toNat ≤ 102 then some (c.toNat - 87)
  else none

/-- Decoder for one JSON string escape sequence (the part after the
backslash), limited to the escapes `escapeChar` emits. -/
def decodeEscape : List Char → Option (Char × List Char)
  | [] => none
  | e :: rest =>
    if e = '\"' then some ('\"', rest)
    else if e = '\\' then some ('\\', rest)
    else if e = 'b' then some (Char.ofNat 8, rest)
    else if e = 't' then some (Char.ofNat 9, rest)
    else if e = 'n' then some (Char.ofNat 10, rest)
    else if e = 'f' then some (Char.ofNat 12, rest)
    else if e = 'r' then some (Char.ofNat 13, rest)
    else if e = 'u' then
      match rest with
      | z1 :: z2 :: h1 :: h2 :: rest2 =>
        if z1 = '0' ∧ z2 = '0' then
          match hexVal h1, hexVal h2 with
          | some a, some b => some (Char.ofNat (16 * a + b), rest2)
          | _, _ => none
        else none
      | _ => none
    else none

/-- Every successful escape decode consumes at least one character. -/
lemma decodeEscape_length {l : List Char} {d : Char} {r : List Char}
    (h : decodeEscape l = some (d, r)) : r.length < l.length := by
  match l with
  | [] => simp [decodeEscape] at h
  | e :: rest =>
    simp only [decodeEscape] at h
    split_ifs at h with h1 h2 h3 h4 h5 h6 h7 h8
    all_goals first
      | (injection h with h'; injection h' with _ hr; subst hr; simp)
      | skip
    · match rest with
      | [] => simp at h
      | [x] => simp at h
      | [x, y] => simp at h
      | [x, y, z] => simp at h
      | z1 :: z2 :: h1c :: h2c :: rest2 =>
        simp only at h
        split_ifs at h
        match hv1 : hexVal h1c, hv2 : hexVal h2c with
        | some a, some b =>
          rw [hv1, hv2] at h
          injection h with h'
          injection h' with _ hr
          subst hr
          simp
          omega
        | some a, none => rw [hv1, hv2] at h; simp at h
        | none, some b => rw [hv1, hv2] at h; simp at h
        | none, none => rw [hv1, hv2] at h; simp at h

/-- Reader for the body of a JSON string literal: consumes characters up
to and including the unescaped closing quote, returning the decoded
content and the remaining input. -/
def readJsonString (l : List Char) : Option (List Char × List Char) :=
  match l with
  | [] => none
  | c :: rest =>
    if c = '\"' then some ([], rest)
    else if c = '\\' then
      match hde : decodeEscape rest with
      | none => none
      | some (d, rest2) =>
        (readJsonString rest2).map (fun p => (d :: p.1, p.2))
    else (readJsonString rest).map (fun p => (c :: p.1, p.2))
termination_by l.length
decreasing_by
  · have := decodeEscape_length hde
    simp
    omega
  · simp

/-- Reader for a whole JSON string literal, opening quote included. -/
def readQuoted (l : List Char) : Option (List Char × List Char) :=
  match l with
  | '\"' :: rest => readJsonString rest
  | _ => none

/-- Consume an expected literal fragment from the front of the input. -/
def dropLit : List Char → List Char → Option (List Char)
  | [], l => some l
  | _ :: _, [] => none
  | c :: cs, x :: xs => if c = x then dropLit cs xs else none

/-- Parser for the JSON dump of an import record: the exact layout
`jsonStringifyImport` emits, with the three string fields decoded. -/
def parseImport (s : String) : Option DocNodeImport := do
  let r1 ← dropLit jsonLit1.data s.data
  let (n, r2) ← readQuoted r1
  let r3 ← dropLit jsonLit2.data r2
  let (sr, r4) ← readQuoted r3
  let r5 ← dropLit jsonLit3.data r4
  let (im, r6) ← readQuoted r5
  let r7 ← dropLit jsonLit4.data r6
  if r7 = [] then some ⟨⟨n⟩, ⟨⟨sr⟩, ⟨im⟩⟩⟩ else none

lemma toNat_ofNat_of_lt (n : Nat) (h : n < 55296) : (Char.ofNat n).toNat = n := by
  have hv : n.isValidChar := Or.inl h
  simp [Char.ofNat, hv, Char.ofNatAux, Char.toNat, UInt32.toNat, BitVec.toNat_ofNatLt]

lemma hexVal_hexDigit (n : Nat) (h : n < 16) : hexVal (hexDigit n) = some n := by
  unfold hexVal hexDigit
  by_cases h10 : n < 10
  · rw [if_pos h10, toNat_ofNat_of_lt _ (by omega), if_pos (by omega)]
    congr 1
    omega
  · rw [if_neg h10, toNat_ofNat_of_lt _ (by omega), if_neg (by omega), if_pos (by omega)]
    congr 1
    omega

/-- Reading back one escaped character: the decoder inverts `escapeChar`
in front of any remaining input. -/
lemma readJsonString_escapeChar (c : Char) (l : List Char) :
    readJsonString (escapeChar c ++ l) =
      (readJsonString l).map (fun p => (c :: p.1, p.2)) := by
  have hofc : Char.ofNat c.toNat = c := Char.ofNat_toNat c
  unfold escapeChar
  split_ifs with hq hb h8 h9 h10 h12 h13 hlt
  · subst hq; simp [readJsonString, decodeEscape]
  · subst hb; simp [readJsonString, decodeEscape]
  · have hc : Char.ofNat 8 = c := h8 ▸ hofc
    simp [readJsonString, decodeEscape]
    rw [← hc]
  · have hc : Char.ofNat 9 = c := h9 ▸ hofc
    simp [readJsonString, decodeEscape]
    rw [← hc]
  · have hc : Char.ofNat 10 = c := h10 ▸ hofc
    simp [readJsonString, decodeEscape]
    rw [← hc]
  · have hc : Char.ofNat 12 = c := h12 ▸ hofc
    simp [readJsonString, decodeEscape]
    rw [← hc]
  · have hc : Char.ofNat 13 = c := h13 ▸ hofc
    simp [readJsonString, decodeEscape]
    rw [← hc]
  · have key : decodeEscape
        ('u' :: '0' :: '0' :: hexDigit (c.toNat / 16) :: hexDigit (c.toNat % 16) :: l) =
        some (Char.ofNat (16 * (c.toNat / 16) + c.toNat % 16), l) := by
      simp only [decodeEscape, and_self, if_true, ite_true]
      rw [hexVal_hexDigit _ (by omega), hexVal_hexDigit _ (by omega)]
      simp
    have hdm : 16 * (c.toNat / 16) + c.toNat % 16 = c.toNat := by omega
    rw [hdm, hofc] at key
    simp only [List.cons_append, List.nil_append]
    rw [readJsonString]
    rw [if_neg (by decide), if_pos rfl, key]
  · rw [List.singleton_append, readJsonString, if_neg hq, if_neg hb]

/-- Reading back an escaped string body up to its closing quote. -/
lemma readJsonString_escapeList (s l : List Char) :
    readJsonString (escapeList s ++ '\"' :: l) = some (s, l) := by
  induction s with
  | nil => simp [escapeList, readJsonString]
  | cons c cs ih =>
    have : escapeList (c :: cs) = escapeChar c ++ escapeList cs := by
      simp [escapeList]
    rw [this, List.append_assoc, readJsonString_escapeChar, ih]
    rfl

/-- Reading back a whole JSON string literal emitted by `quoteJson`. -/
lemma readQuoted_quote (s : String) (l : List Char) :
    readQuoted ((quoteJson s).data ++ l) = some (s.data, l) := by
  have hdata : (quoteJson s).data = '\"' :: (escapeList s.data ++ ['\"']) := by
    simp [quoteJson, String.data_append]
  rw [hdata]
  show readJsonString ((escapeList s.data ++ ['\"']) ++ l) = some (s.data, l)
  rw [List.append_assoc, List.singleton_append, readJsonString_escapeList]

lemma dropLit_append (lit l : List Char) : dropLit lit (lit ++ l) = some l := by
  induction lit with
  | nil => simp [dropLit]
  | cons c cs ih => simp [dropLit, ih]

lemma dropLit_self (lit : List Char) : dropLit lit lit = some [] := by
  have := dropLit_append lit []
  simpa using this

/-- Losslessness of the JSON dump: parsing the dump of any import record
recovers the record exactly. -/
lemma parseImport_jsonStringify (d : DocNodeImport) :
    parseImport (jsonStringifyImport d) = some d := by
  unfold parseImport jsonStringifyImport
  simp only [String.data_append, List.append_assoc, Option.bind_eq_bind]
  simp [dropLit_append, readQuoted_quote, dropLit_self]

/-- Uppercase ASCII letter test. -/
def isUpperChar (c : Char) : Bool := decide (65 ≤ c.toNat ∧ c.toNat ≤ 90)

/-- Whitespace test: space, tab, line feed, vertical tab, form feed,
carriage return. -/
def isWsChar (c : Char) : Bool :=
  decide (c.toNat = 32 ∨ c.toNat = 9 ∨ c.toNat = 10 ∨ c.toNat = 11 ∨
    c.toNat = 12 ∨ c.toNat = 13)

/-- A string is entirely lowercase: it contains no uppercase letter. -/
def allLower (s : String) : Bool := s.data.all (fun c => !isUpperChar c)

/-- A string contains no (unescaped) whitespace. -/
def noWhitespace (s : String) : Bool := s.data.all (fun c => !isWsChar c)

/-- A string begins with the given other string. -/
def beginsWith (s pre : String) : Bool := (dropLit pre.data s.data).isSome

lemma isUpperChar_lowerChar (c : Char) : isUpperChar (lowerChar c) = false := by
  unfold isUpperChar lowerChar
  split_ifs with h
  · rw [toNat_ofNat_of_lt _ (by omega)]
    rw [decide_eq_false (by omega)]
  · rw [decide_eq_false (by omega)]

lemma isWsChar_lowerChar (c : Char) : isWsChar (lowerChar c) = isWsChar c := by
  unfold isWsChar lowerChar
  split_ifs with h
  · rw [toNat_ofNat_of_lt _ (by omega)]
    rw [decide_eq_false (by omega), decide_eq_false (by omega)]
  · rfl

lemma allLower_toLocaleLowerCase (s : String) :
    allLower (toLocaleLowerCase s) = true := by
  unfold allLower toLocaleLowerCase
  simp [List.all_eq_true, isUpperChar_lowerChar]

lemma noWhitespace_toLocaleLowerCase (s : String)
    (h : noWhitespace s = true) : noWhitespace (toLocaleLowerCase s) = true := by
  unfold noWhitespace toLocaleLowerCase at *
  simp only [List.all_eq_true, List.mem_map, String.data] at *
  rintro x ⟨c, hc, rfl⟩
  rw [isWsChar_lowerChar]
  exact h c hc

lemma allLower_append (s t : String) :
    allLower (s ++ t) = (allLower s && allLower t) := by
  unfold allLower
  rw [String.data_append, List.all_append]

lemma noWhitespace_append (s t : String) :
    noWhitespace (s ++ t) = (noWhitespace s && noWhitespace t) := by
  unfold noWhitespace
  rw [String.data_append, List.all_append]

lemma beginsWith_append (pre t : String) : beginsWith (pre ++ t) pre = true := by
  unfold beginsWith
  rw [String.data_append, dropLit_append]
  rfl

/-- Left cancellation for string append. -/
lemma append_cancel_left_str {a b c : String} (h : a ++ b = a ++ c) : b = c := by
  have hd := congrArg String.data h
  simp only [String.data_append] at hd
  exact congrArg String.mk (List.append_cancel_left hd)

/-- Modelled from the spec: the closed set of symbol kinds (import or
re-export, function, class, interface, variable, type alias, enum,
namespace). Only the import renderer is under src/; the closed kind set
is the data model of the spec. -/
inductive SymbolKind where
  | importKind
  | functionKind
  | classKind
  | interfaceKind
  | variableKind
  | typeAliasKind
  | enumKind
  | namespaceKind
deriving DecidableEq, Repr

/-- Modelled from the spec: every kind reserves its own URL suffix; the
suffix "import" of the rendering code is the one observed in src/. -/
def kindTag : SymbolKind → String
  | .importKind => "import"
  | .functionKind => "function"
  | .classKind => "class"
  | .interfaceKind => "interface"
  | .variableKind => "variable"
  | .typeAliasKind => "typealias"
  | .enumKind => "enum"
  | .namespaceKind => "namespace"

/-- Modelled from the spec: the slug/URL deriver, mapping root, package
name and symbol name (both lowercased) plus the kind tag to the page URL,
following the scheme the import renderer instantiates. -/
def slugUrl (root packageName name : String) (k : SymbolKind) : String :=
  root ++ "/" ++ toLocaleLowerCase packageName ++ "/" ++ toLocaleLowerCase name ++
    "." ++ kindTag k

lemma kindTag_injective (k₁ k₂ : SymbolKind) (h : kindTag k₁ = kindTag k₂) :
    k₁ = k₂ := by
  revert h
  cases k₁ <;> cases k₂ <;> decide

/-- C1: for every import symbol record and reference context, getPages
yields a page whose url is the context root, the lowercased package name
and the lowercased record name joined by slashes with the ".import"
suffix, and whose title is the name of the record; in particular, the record
named "Foo" in package "mypkg" under root "/ref" yields title "Foo" and
url "/ref/mypkg/foo.import". -/
theorem claim_C1 :
    (∀ (item : DocNodeImport) (context : ReferenceContext),
      (getPages item context).map (fun p => (p.title, p.url)) =
        [(item.name,
          context.root ++ "/" ++ toLocaleLowerCase context.packageName ++ "/" ++
            toLocaleLowerCase item.name ++ ".import")]) ∧
    (getPages fooRecord refCtx).map (fun p => (p.title, p.url)) =
      [("Foo", "/ref/mypkg/foo.import")] :=
  ⟨fun _ _ => rfl, by decide⟩

/-- C2: rendering is deterministic: two invocations of getPages on
identical inputs yield identical pages (title, url and content), and in
particular identical derived URLs. The embedding is a pure function of
the record and the context, exactly because the source computes the page
from its two arguments alone. -/
theorem claim_C2 (item₁ item₂ : DocNodeImport) (ctx₁ ctx₂ : ReferenceContext)
    (hitem : item₁ = item₂) (hctx : ctx₁ = ctx₂) :
    getPages item₁ ctx₁ = getPages item₂ ctx₂ ∧
    (getPages item₁ ctx₁).map (fun p => p.url) =
      (getPages item₂ ctx₂).map (fun p => p.url) := by
  subst hitem
  subst hctx
  exact ⟨rfl, rfl⟩

/-- C2 witness: the determinism theorem applied at the example record and
context of the spec. -/
theorem claim_C2_witness :
    getPages fooRecord refCtx = getPages fooRecord refCtx ∧
    (getPages fooRecord refCtx).map (fun p => p.url) =
      (getPages fooRecord refCtx).map (fun p => p.url) :=
  claim_C2 fooRecord fooRecord refCtx refCtx rfl rfl

/-- C3: the navigation context passed to the page-layout collaborator has
currentItemName equal to the name of the record and category equal to the
packageName of the context. -/
theorem claim_C3 :
    ∀ (data : DocNodeImport) (context : ReferenceContext),
      (Import data context).navigation.currentItemName = data.name ∧
      (Import data context).navigation.category = context.packageName :=
  fun _ _ => ⟨rfl, rfl⟩

/-- C4: the rendered content contains the pretty-printed JSON dump of the
full record, and that dump is lossless: parsing it back recovers a record
equal to the input, so no field is dropped. -/
theorem claim_C4 :
    ∀ (data : DocNodeImport) (context : ReferenceContext),
      jsonStringifyImport data ∈ ((Import data context).body).texts ∧
      parseImport (jsonStringifyImport data) = some data := by
  intro data context
  refine ⟨?_, parseImport_jsonStringify data⟩
  simp [Import, ReferencePage, Markup.texts]

/-- C8: the reference context is never mutated by a renderer invocation:
the source only reads context fields, so its embedding is a pure function;
the context value threaded into the rendered page is the input context
itself, with root and packageName unchanged, and the derived navigation
state is a fresh projection of those fields. -/
theorem claim_C8 :
    ∀ (item : DocNodeImport) (ctx : ReferenceContext),
      (Import item ctx).context = ctx ∧
      (Import item ctx).context.root = ctx.root ∧
      (Import item ctx).context.packageName = ctx.packageName ∧
      (getPages item ctx).map (fun p => p.content.context) = [ctx] ∧
      (getPages item ctx).map (fun p => p.content.navigation) =
        [⟨ctx.packageName, item.name⟩] :=
  fun _ _ => ⟨rfl, rfl, rfl, rfl, rfl⟩

/-- C9: the emitted title preserves the casing of the record name verbatim
while the url lowercases the same name: every page is titled exactly
item.name, and the "Foo" record yields title "Foo" (not "foo") next to
url "/ref/mypkg/foo.import". -/
theorem claim_C9 :
    (∀ (item : DocNodeImport) (ctx : ReferenceContext),
      (getPages item ctx).map (fun p => p.title) = [item.name]) ∧
    (getPages fooRecord refCtx).map (fun p => (p.title, p.url)) =
      [("Foo", "/ref/mypkg/foo.import")] ∧
    ("Foo" : String) ≠ "foo" :=
  ⟨fun _ _ => rfl, by decide, by decide⟩

/-- C5 counterexample: the claim that every derived URL is entirely
lowercase with no unescaped whitespace fails at the structurally valid
record named "F o" in package "My Pkg" under root "/REF": the code
lowercases only the package-name and record-name segments and never
strips or escapes whitespace, so the derived url "/REF/my pkg/f o.import"
keeps the uppercase letters of the root and the spaces of the names. -/
theorem claim_C5_counterexample :
    ¬ ((getPages ⟨"F o", ⟨"s", "i"⟩⟩ ⟨"/REF", "My Pkg"⟩).all
        (fun p => allLower p.url && noWhitespace p.url) = true) := by
  decide

/-- C5 amended: every derived URL begins with the root of the context,
unconditionally; and when the root is entirely lowercase and
whitespace-free and the package name and record name contain no
whitespace, the derived URL is entirely lowercase and contains no
unescaped whitespace. -/
theorem claim_C5 (item : DocNodeImport) (ctx : ReferenceContext) :
    ((getPages item ctx).map (fun p => p.url)).all
      (fun u => beginsWith u ctx.root) = true ∧
    (allLower ctx.root = true → noWhitespace ctx.root = true →
      noWhitespace ctx.packageName = true → noWhitespace item.name = true →
      ((getPages item ctx).map (fun p => p.url)).all
        (fun u => allLower u && noWhitespace u) = true) := by
  constructor
  · simp only [getPages, List.map_cons, List.map_nil, List.all_cons, List.all_nil,
      Bool.and_true]
    rw [show ctx.root ++ "/" ++ toLocaleLowerCase ctx.packageName ++ "/" ++
        toLocaleLowerCase item.name ++ ".import" =
        ctx.root ++ ("/" ++ (toLocaleLowerCase ctx.packageName ++ ("/" ++
          (toLocaleLowerCase item.name ++ ".import")))) from by
      simp [String.append_assoc]]
    exact beginsWith_append ctx.root _
  · intro hroot hrootws hpkg hname
    simp only [getPages, List.map_cons, List.map_nil, List.all_cons, List.all_nil,
      Bool.and_true, Bool.and_eq_true]
    constructor
    · simp only [allLower_append, Bool.and_eq_true]
      exact ⟨⟨⟨⟨⟨hroot, by decide⟩, allLower_toLocaleLowerCase _⟩, by decide⟩,
        allLower_toLocaleLowerCase _⟩, by decide⟩
    · simp only [noWhitespace_append, Bool.and_eq_true]
      exact ⟨⟨⟨⟨⟨hrootws, by decide⟩, noWhitespace_toLocaleLowerCase _ hpkg⟩, by decide⟩,
        noWhitespace_toLocaleLowerCase _ hname⟩, by decide⟩

/-- C5 witness: the amended well-formedness theorem applied at the
example record and context of the spec, the hypotheses of its conditional
part discharged there. -/
theorem claim_C5_witness :
    ((getPages fooRecord refCtx).map (fun p => p.url)).all
      (fun u => beginsWith u "/ref") = true ∧
    ((getPages fooRecord refCtx).map (fun p => p.url)).all
      (fun u => allLower u && noWhitespace u) = true :=
  ⟨(claim_C5 fooRecord refCtx).1,
    (claim_C5 fooRecord refCtx).2 (by decide) (by decide) (by decide) (by decide)⟩

/-- C6: two symbol records sharing name and package but differing in kind
derive different URLs, because each kind reserves its own suffix; the
URL of the renderer from src/ instantiates this scheme at the "import"
tag. -/
theorem claim_C6 :
    (∀ (root pkg name : String) (k₁ k₂ : SymbolKind), k₁ ≠ k₂ →
      slugUrl root pkg name k₁ ≠ slugUrl root pkg name k₂) ∧
    ∀ (item : DocNodeImport) (ctx : ReferenceContext),
      (getPages item ctx).map (fun p => p.url) =
        [slugUrl ctx.root ctx.packageName item.name SymbolKind.importKind] := by
  constructor
  · intro root pkg name k₁ k₂ hk he
    apply hk
    apply kindTag_injective
    unfold slugUrl at he
    exact append_cancel_left_str he
  · intro item ctx
    show [ctx.root ++ "/" ++ toLocaleLowerCase ctx.packageName ++ "/" ++
        toLocaleLowerCase item.name ++ ".import"] =
      [slugUrl ctx.root ctx.packageName item.name SymbolKind.importKind]
    unfold slugUrl kindTag
    rw [String.append_assoc _ "." "import"]
    rfl

/-- C6 witness: the kind-disambiguation theorem applied at a concrete
name shared by an import and a function. -/
theorem claim_C6_witness :
    SymbolKind.importKind ≠ SymbolKind.functionKind ∧
    slugUrl "/ref" "mypkg" "Bar" SymbolKind.importKind ≠
      slugUrl "/ref" "mypkg" "Bar" SymbolKind.functionKind :=
  ⟨by decide, claim_C6.1 "/ref" "mypkg" "Bar" _ _ (by decide)⟩

/-- C7 counterexample: the yielded sequence is not restartable. At the
example inputs of the spec the generator yields its one page on the first
draining iteration, and re-iterating the exhausted generator object
yields nothing, not the same pages again: a JavaScript generator returns
itself from its iterator method and stays done. -/
theorem claim_C7_counterexample :
    (iterateAll (mkGenerator fooRecord refCtx)).1.length = 1 ∧
    (iterateAll (iterateAll (mkGenerator fooRecord refCtx)).2).1 ≠
      (iterateAll (mkGenerator fooRecord refCtx)).1 := by
  decide

/-- C7 amended: every invocation of getPages produces a finite sequence
of exactly one emitted page; the generator object itself is single-pass
(a second iteration of an exhausted generator yields no pages), but
re-invoking getPages on identical inputs yields the same pages in the
same order. -/
theorem claim_C7 (item₁ item₂ : DocNodeImport) (ctx₁ ctx₂ : ReferenceContext)
    (hitem : item₁ = item₂) (hctx : ctx₁ = ctx₂) :
    (getPages item₁ ctx₁).length = 1 ∧
    getPages item₁ ctx₁ = getPages item₂ ctx₂ ∧
    (iterateAll (iterateAll (mkGenerator item₁ ctx₁)).2).1 = [] := by
  subst hitem
  subst hctx
  exact ⟨rfl, rfl, rfl⟩

/-- C7 witness: the amended theorem applied at the example record and
context of the spec. -/
theorem claim_C7_witness :
    (getPages fooRecord refCtx).length = 1 ∧
    getPages fooRecord refCtx = getPages fooRecord refCtx ∧
    (iterateAll (iterateAll (mkGenerator fooRecord refCtx)).2).1 = [] :=
  claim_C7 fooRecord fooRecord refCtx refCtx rfl rfl

/-- C10: the derived URL depends only on the root and packageName of the
context and the name of the record: two records sharing the name, under
contexts sharing root and packageName, derive identical URLs whatever
their payloads; and the name is interpolated verbatim after lowercasing,
with no escaping or validation: an empty name yields a URL ending in
"/.import", and slashes and spaces in a name flow into the URL. -/
theorem claim_C10 (item₁ item₂ : DocNodeImport) (ctx₁ ctx₂ : ReferenceContext)
    (hname : item₁.name = item₂.name) (hroot : ctx₁.root = ctx₂.root)
    (hpkg : ctx₁.packageName = ctx₂.packageName) :
    (getPages item₁ ctx₁).map (fun p => p.url) =
      (getPages item₂ ctx₂).map (fun p => p.url) ∧
    (getPages ⟨"", ⟨"s", "i"⟩⟩ refCtx).map (fun p => p.url) =
      ["/ref/mypkg/.import"] ∧
    (getPages ⟨"My Name/X", ⟨"s", "i"⟩⟩ ⟨"/r", "p"⟩).map (fun p => p.url) =
      ["/r/p/my name/x.import"] := by
  refine ⟨?_, by decide, by decide⟩
  simp [getPages, hname, hroot, hpkg]

/-- C10 witness: two import records with the same name but different
payloads, rendered under the same context, derive the same URL. -/
theorem claim_C10_witness :
    (getPages ⟨"Foo", ⟨"a", "b"⟩⟩ refCtx).map (fun p => p.url) =
      (getPages ⟨"Foo", ⟨"c", "d"⟩⟩ refCtx).map (fun p => p.url) :=
  (claim_C10 ⟨"Foo", ⟨"a", "b"⟩⟩ ⟨"Foo", ⟨"c", "d"⟩⟩ refCtx refCtx rfl rfl rfl).1

end DocsSpec
